import Mathlib

/-!
Shallow embedding of the spread-turn-tracker core logic.

The repository contains two variants of the tracker:
* an API-backed variant (src/app.js, first part): state holds derived
  counts/last-dates recomputed from a list of turn events, with a constant
  install-turn offset of 1 added for display and completion checks;
* a localStorage variant (src/app.js, second part): state holds counters
  directly (install turn counted into the defaults topDone = bottomDone = 1)
  together with a denormalized snapshot history.

Dates are modelled as integer day numbers (calendar days at local midnight);
day 0 is chosen to fall on a Sunday so that the JS getDay() convention
(0 = Sunday .. 6 = Saturday) corresponds to emod 7.  All the date utilities
in the source normalize both operands to midnight before subtracting, so
daysBetween is exact integer subtraction of day numbers and addDays is
integer addition.
-/

namespace Tracker

/-- Calendar day as an integer day number; day 0 is a Sunday. -/
abbrev Day := Int

/-- JS getDay(): 0 = Sunday .. 6 = Saturday. -/
def dayOfWeek (d : Day) : Int := d.emod 7

/-- addDays from src/app.js: date plus a number of days. -/
def addDays (d : Day) (n : Int) : Day := d + n

/-- daysBetween from src/app.js: both operands are set to midnight and the
difference is floored to whole days, which on day numbers is exact
subtraction (b - a). -/
def daysBetween (a b : Day) : Int := b - a

/-- getWeekStart from src/app.js lines 202-207: Monday as start of week.
The JS computes d.getDate() - day + (day === 0 ? -6 : 1) with
day = getDay(), i.e. it subtracts (day + 6) mod 7 days. -/
def getWeekStart (d : Day) : Day := d - ((d.emod 7 + 6).emod 7)

/-- A stored track ("arch"): top or bottom. -/
inductive Arch
  | top
  | bottom
  deriving DecidableEq, Repr

/-- A requested scope for an operation: a single track or 'both'. -/
inductive ArchReq
  | top
  | bottom
  | both
  deriving DecidableEq, Repr

/-- Embeds a single track into the request type. -/
def Arch.toReq : Arch → ArchReq
  | Arch.top => ArchReq.top
  | Arch.bottom => ArchReq.bottom

/-- Schedule type (CHECK constraint in the settings table allows exactly
these two values). -/
inductive ScheduleType
  | every_n_days
  | twice_per_week
  deriving DecidableEq, Repr

/-- Reason carried by a negative canLogTurn result. -/
inductive Reason
  | complete
  | wait
  deriving DecidableEq, Repr

/-- Result shape of canLogTurn in both variants: the JS returns ad-hoc
objects with optional reason / daysRemaining / message fields. -/
structure CanLogResult where
  canLog : Bool
  reason : Option Reason
  daysRemaining : Option Int
  message : Option String
  deriving DecidableEq, Repr

/-- The { canLog: false, reason: 'complete' } result. -/
def completeResult : CanLogResult :=
  { canLog := false, reason := some Reason.complete, daysRemaining := none, message := none }

/-- The { canLog: true } result. -/
def okResult : CanLogResult :=
  { canLog := true, reason := none, daysRemaining := none, message := none }

/-- The { canLog: false, reason: 'wait', daysRemaining: d } result. -/
def waitDays (d : Int) : CanLogResult :=
  { canLog := false, reason := some Reason.wait, daysRemaining := some d, message := none }

/-- The weekly-cap rejection of the API variant: reason 'wait' with a
message and no daysRemaining field. -/
def waitWeek : CanLogResult :=
  { canLog := false, reason := some Reason.wait, daysRemaining := none,
    message := some "Already logged 2 turns this week" }

/-- Three-valued status of the status classifier. -/
inductive Status
  | ready
  | wait
  | complete
  deriving DecidableEq, Repr

/-- Install turn constant of the API variant (src/app.js line 223). -/
def INSTALL_TURN : Int := 1

end Tracker

namespace Tracker.Api

open Tracker

/-- A turn event as held in state.turns of the API variant. -/
structure ApiTurn where
  date : Day
  arch : Arch
  note : Option String
  deriving DecidableEq, Repr

/-- state.settings of the API variant. -/
structure ApiSettings where
  topTotal : Int
  bottomTotal : Int
  installDate : Option Day
  scheduleType : ScheduleType
  intervalDays : Int
  childName : String
  deriving DecidableEq, Repr

/-- state.counts of the API variant. -/
structure Counts where
  topDone : Int
  bottomDone : Int
  deriving DecidableEq, Repr

/-- state.lastDates of the API variant. -/
structure LastDates where
  top : Option Day
  bottom : Option Day
  deriving DecidableEq, Repr

/-- The API-variant in-memory state (treatment notes are irrelevant to the
core logic and omitted). -/
structure ApiState where
  settings : ApiSettings
  turns : List ApiTurn
  counts : Counts
  lastDates : LastDates
  deriving DecidableEq, Repr

/-- The per-track logged count selected by canLogTurn / getNextDueDate /
getStatus (isTop ? counts.topDone : counts.bottomDone). -/
def logged (s : ApiState) (a : Arch) : Int :=
  if a = Arch.top then s.counts.topDone else s.counts.bottomDone

/-- The per-track total selected from settings. -/
def total (s : ApiState) (a : Arch) : Int :=
  if a = Arch.top then s.settings.topTotal else s.settings.bottomTotal

/-- The per-track last date selected from state.lastDates. -/
def lastDate (s : ApiState) (a : Arch) : Option Day :=
  if a = Arch.top then s.lastDates.top else s.lastDates.bottom

/-- getTurnsThisWeek from src/app.js lines 209-220: count turns of the arch
whose date lies in [weekStart, weekStart + 6] of today's Monday-start week. -/
def getTurnsThisWeek (s : ApiState) (today : Day) (a : Arch) : Nat :=
  (s.turns.filter (fun t =>
    t.arch == a && decide (getWeekStart today ≤ t.date)
      && decide (t.date ≤ addDays (getWeekStart today) 6))).length

/-- canLogTurn from src/app.js lines 309-348 (API variant).  The displayed
done count is logged turns plus the install turn. -/
def canLogTurn (s : ApiState) (today : Day) (a : Arch) : CanLogResult :=
  let done := logged s a + INSTALL_TURN
  if done ≥ total s a then
    completeResult
  else if s.settings.scheduleType = ScheduleType.twice_per_week then
    if getTurnsThisWeek s today a ≥ 2 then waitWeek else okResult
  else
    match lastDate s a with
    | none => okResult
    | some last =>
      let daysSince := daysBetween last today
      if daysSince < s.settings.intervalDays then
        waitDays (s.settings.intervalDays - daysSince)
      else okResult

/-- getNextDueDate from src/app.js lines 350-382 (API variant). -/
def getNextDueDate (s : ApiState) (today : Day) (a : Arch) : Option Day :=
  let done := logged s a + INSTALL_TURN
  if done ≥ total s a then
    none
  else if s.settings.scheduleType = ScheduleType.twice_per_week then
    if getTurnsThisWeek s today a < 2 then some today
    else some (addDays (getWeekStart today) 7)
  else
    match lastDate s a with
    | none => s.settings.installDate.map (fun d => addDays d s.settings.intervalDays)
    | some last => some (addDays last s.settings.intervalDays)

/-- getStatus from src/app.js lines 384-398 (API variant).  A false
canLogTurn result always carries a reason, so the none branch below is
unreachable; it is mapped to wait arbitrarily. -/
def getStatus (s : ApiState) (today : Day) (a : Arch) : Status :=
  let done := logged s a + INSTALL_TURN
  if done ≥ total s a then
    Status.complete
  else
    let c := canLogTurn s today a
    if c.canLog then Status.ready
    else
      match c.reason with
      | some Reason.complete => Status.complete
      | some Reason.wait => Status.wait
      | none => Status.wait

/-- Combined status computed in render, src/app.js lines 502-504:
complete when both tracks are complete, else ready when either track is
ready, else wait. -/
def overallStatus (s : ApiState) (today : Day) : Status :=
  let t := getStatus s today Arch.top
  let b := getStatus s today Arch.bottom
  if t = Status.complete ∧ b = Status.complete then Status.complete
  else if t = Status.ready ∨ b = Status.ready then Status.ready
  else Status.wait

end Tracker.Api

namespace Tracker.LocalStorage

open Tracker

/-- A denormalized history entry of the localStorage variant: date, optional
note and the snapshot counters after the entry.  The stored wall-clock
timestamp field is written but never read by any logic and is omitted. -/
structure HistEntry where
  date : Day
  note : Option String
  topDoneAfter : Int
  bottomDoneAfter : Int
  deriving DecidableEq, Repr

/-- The localStorage-variant state (src/app.js second part). -/
structure LocalState where
  topTotal : Int
  bottomTotal : Int
  topDone : Int
  bottomDone : Int
  intervalDays : Int
  installDate : Option Day
  lastTurnDate : Option Day
  lastTopTurnDate : Option Day
  lastBottomTurnDate : Option Day
  childName : String
  logTogether : Bool
  history : List HistEntry
  deriving DecidableEq, Repr

/-- defaultState of the localStorage variant: the install turn is counted
into topDone = bottomDone = 1. -/
def defaultState : LocalState :=
  { topTotal := 27, bottomTotal := 23, topDone := 1, bottomDone := 1,
    intervalDays := 2, installDate := none, lastTurnDate := none,
    lastTopTurnDate := none, lastBottomTurnDate := none,
    childName := "Child", logTogether := true, history := [] }

/-- Per-track done counter selected by the single-arch branch. -/
def done (s : LocalState) (a : Arch) : Int :=
  if a = Arch.top then s.topDone else s.bottomDone

/-- Per-track total selected by the single-arch branch. -/
def total (s : LocalState) (a : Arch) : Int :=
  if a = Arch.top then s.topTotal else s.bottomTotal

/-- Per-track last turn date selected by the single-arch branch. -/
def lastDate (s : LocalState) (a : Arch) : Option Day :=
  if a = Arch.top then s.lastTopTurnDate else s.lastBottomTurnDate

/-- Single-arch branch of canLogTurn, src/app.js lines 1228-1252. -/
def canLogSingle (s : LocalState) (today : Day) (a : Arch) : CanLogResult :=
  if done s a ≥ total s a then
    completeResult
  else
    match lastDate s a with
    | none => okResult
    | some last =>
      let daysSince := daysBetween last today
      if daysSince < s.intervalDays then waitDays (s.intervalDays - daysSince)
      else okResult

/-- canLogTurn of the localStorage variant, src/app.js lines 1198-1253.
The recursive self-calls of the 'both' branch on 'top' and 'bottom' are the
single-arch branch, embedded as canLogSingle. -/
def canLogTurn (s : LocalState) (today : Day) (arch : ArchReq) : CanLogResult :=
  match arch with
  | ArchReq.both =>
    if s.topDone ≥ s.topTotal ∧ s.bottomDone ≥ s.bottomTotal then
      completeResult
    else if s.logTogether then
      match s.lastTurnDate with
      | none => okResult
      | some last =>
        let daysSince := daysBetween last today
        if daysSince < s.intervalDays then waitDays (s.intervalDays - daysSince)
        else okResult
    else
      let topCan := canLogSingle s today Arch.top
      let bottomCan := canLogSingle s today Arch.bottom
      if ¬topCan.canLog ∧ ¬bottomCan.canLog then topCan else okResult
  | ArchReq.top => canLogSingle s today Arch.top
  | ArchReq.bottom => canLogSingle s today Arch.bottom

/-- logTurn of the localStorage variant, src/app.js lines 1255-1294.  The
history entry is written with the counters after the increments; the list
is capped at the 50 newest entries. -/
def logTurn (s : LocalState) (today : Day) (arch : ArchReq) (note : Option String) :
    LocalState :=
  let s1 :=
    if (arch = ArchReq.both ∨ arch = ArchReq.top) ∧ s.topDone < s.topTotal then
      { s with topDone := s.topDone + 1, lastTopTurnDate := some today }
    else s
  let s2 :=
    if (arch = ArchReq.both ∨ arch = ArchReq.bottom) ∧ s1.bottomDone < s1.bottomTotal then
      { s1 with bottomDone := s1.bottomDone + 1, lastBottomTurnDate := some today }
    else s1
  let s3 :=
    if arch = ArchReq.both ∨ s2.logTogether then
      { s2 with lastTurnDate := some today }
    else s2
  let entry : HistEntry :=
    { date := today, note := note, topDoneAfter := s3.topDone,
      bottomDoneAfter := s3.bottomDone }
  { s3 with history := (entry :: s3.history).take 50 }

/-- The baseline used by undoLastLog's date inference for the top track:
the topDoneAfter of the first history entry with the currently remembered
date, or 0 when no date is remembered (src/app.js line 1321). -/
def topBaseline (h : List HistEntry) : Option Day → Int
  | none => 0
  | some d => ((h.find? (fun e => e.date == d)).map (fun e => e.topDoneAfter)).getD 0

/-- The analogous baseline for the bottom track (src/app.js line 1326). -/
def bottomBaseline (h : List HistEntry) : Option Day → Int
  | none => 0
  | some d => ((h.find? (fun e => e.date == d)).map (fun e => e.bottomDoneAfter)).getD 0

/-- One iteration of undoLastLog's date-inference loop over the remaining
history (newest first); the accumulator is (lastTopDate, lastBottomDate,
lastBothDate). -/
def dateStep (h : List HistEntry) (acc : Option Day × Option Day × Option Day)
    (e : HistEntry) : Option Day × Option Day × Option Day :=
  let lt := if e.topDoneAfter > topBaseline h acc.1 then some e.date else acc.1
  let lb := if e.bottomDoneAfter > bottomBaseline h acc.2.1 then some e.date else acc.2.1
  (lt, lb, some e.date)

/-- The full date-inference loop of undoLastLog (src/app.js lines 1311-1331). -/
def recomputeDates (h : List HistEntry) : Option Day × Option Day × Option Day :=
  h.foldl (dateStep h) (none, none, none)

/-- undoLastLog, src/app.js lines 1296-1347: returns false on an empty
history; otherwise removes the newest entry, restores the counters from the
next-newest entry (or the initial 1/1 when none remains) and re-infers the
last-turn dates from the snapshot history. -/
def undoLastLog (s : LocalState) : Bool × LocalState :=
  match s.history with
  | [] => (false, s)
  | _last :: rest =>
    match rest with
    | [] =>
      (true, { s with
                history := []
                topDone := 1
                bottomDone := 1
                lastTurnDate := none
                lastTopTurnDate := none
                lastBottomTurnDate := none })
    | prev :: _ =>
      let dates := recomputeDates rest
      (true, { s with
                history := rest
                topDone := prev.topDoneAfter
                bottomDone := prev.bottomDoneAfter
                lastTopTurnDate := dates.1
                lastBottomTurnDate := dates.2.1
                lastTurnDate := dates.2.2 })

/-- Single-arch branch of getNextDueDate, src/app.js lines 1372-1387. -/
def getNextDueDateSingle (s : LocalState) (a : Arch) : Option Day :=
  if done s a ≥ total s a then
    none
  else
    match lastDate s a with
    | none => s.installDate.map (fun d => addDays d s.intervalDays)
    | some last => some (addDays last s.intervalDays)

/-- getNextDueDate of the localStorage variant, src/app.js lines 1357-1388. -/
def getNextDueDate (s : LocalState) (arch : ArchReq) : Option Day :=
  match arch with
  | ArchReq.both =>
    if s.logTogether then
      match s.lastTurnDate with
      | none => s.installDate.map (fun d => addDays d s.intervalDays)
      | some last => some (addDays last s.intervalDays)
    else
      match getNextDueDateSingle s Arch.top, getNextDueDateSingle s Arch.bottom with
      | none, b => b
      | some t, none => some t
      | some t, some b => some (if t < b then t else b)
  | ArchReq.top => getNextDueDateSingle s Arch.top
  | ArchReq.bottom => getNextDueDateSingle s Arch.bottom

/-- Single-arch branch of getStatus, src/app.js lines 1410-1424.  A false
canLogSingle result always carries a reason, so the none branch is
unreachable. -/
def getStatusSingle (s : LocalState) (today : Day) (a : Arch) : Status :=
  if done s a ≥ total s a then
    Status.complete
  else
    let c := canLogSingle s today a
    if c.canLog then Status.ready
    else
      match c.reason with
      | some Reason.complete => Status.complete
      | some Reason.wait => Status.wait
      | none => Status.wait

/-- getStatus of the localStorage variant, src/app.js lines 1390-1425. -/
def getStatus (s : LocalState) (today : Day) (arch : ArchReq) : Status :=
  match arch with
  | ArchReq.both =>
    let t := getStatusSingle s today Arch.top
    let b := getStatusSingle s today Arch.bottom
    if t = Status.complete ∧ b = Status.complete then Status.complete
    else if t = Status.complete then b
    else if b = Status.complete then t
    else
      let c := canLogTurn s today ArchReq.both
      if ¬c.canLog then
        (if c.reason = some Reason.complete then Status.complete else Status.wait)
      else Status.ready
  | ArchReq.top => getStatusSingle s today Arch.top
  | ArchReq.bottom => getStatusSingle s today Arch.bottom

/-- Settings-form edit of intervalDays (src/app.js lines 1699-1706):
clamped to at least 1. -/
def setIntervalDays (s : LocalState) (v : Int) : LocalState :=
  { s with intervalDays := max 1 v }

/-- Settings-form edit of topTotal (src/app.js lines 1709-1720): clamped to
at least 1, and topDone is clamped down to the new total. -/
def setTopTotal (s : LocalState) (v : Int) : LocalState :=
  let newTotal := max 1 v
  { s with
    topTotal := newTotal
    topDone := if s.topDone > newTotal then newTotal else s.topDone }

/-- Settings-form edit of bottomTotal (src/app.js lines 1722-1733). -/
def setBottomTotal (s : LocalState) (v : Int) : LocalState :=
  let newTotal := max 1 v
  { s with
    bottomTotal := newTotal
    bottomDone := if s.bottomDone > newTotal then newTotal else s.bottomDone }

/-- Settings-form edit of topDone (src/app.js lines 1736-1744): clamped to
[0, topTotal]. -/
def setTopDone (s : LocalState) (v : Int) : LocalState :=
  { s with topDone := max 0 (min v s.topTotal) }

/-- Settings-form edit of bottomDone (src/app.js lines 1746-1754). -/
def setBottomDone (s : LocalState) (v : Int) : LocalState :=
  { s with bottomDone := max 0 (min v s.bottomTotal) }

/-- Settings-form toggle of logTogether (src/app.js lines 1757-1764). -/
def setLogTogether (s : LocalState) (b : Bool) : LocalState :=
  { s with logTogether := b }

/-- Settings-form edit of installDate (src/app.js lines 1689-1696). -/
def setInstallDate (s : LocalState) (d : Option Day) : LocalState :=
  { s with installDate := d }

/-- Settings-form edit of childName (src/app.js lines 1679-1686). -/
def setChildName (s : LocalState) (n : String) : LocalState :=
  { s with childName := n }

/-- States reachable from the defaults by the public operations: logging a
turn, undoing the last log, full reset, and the settings-form edits. -/
inductive Reachable : LocalState → Prop
  | start : Reachable defaultState
  | log (s : LocalState) (today : Day) (arch : ArchReq) (note : Option String) :
      Reachable s → Reachable (logTurn s today arch note)
  | undo (s : LocalState) : Reachable s → Reachable (undoLastLog s).2
  | fullReset (s : LocalState) : Reachable s → Reachable defaultState
  | interval (s : LocalState) (v : Int) : Reachable s → Reachable (setIntervalDays s v)
  | topTotalEdit (s : LocalState) (v : Int) : Reachable s → Reachable (setTopTotal s v)
  | bottomTotalEdit (s : LocalState) (v : Int) : Reachable s → Reachable (setBottomTotal s v)
  | topDoneEdit (s : LocalState) (v : Int) : Reachable s → Reachable (setTopDone s v)
  | bottomDoneEdit (s : LocalState) (v : Int) : Reachable s → Reachable (setBottomDone s v)
  | together (s : LocalState) (b : Bool) : Reachable s → Reachable (setLogTogether s b)
  | install (s : LocalState) (d : Option Day) : Reachable s → Reachable (setInstallDate s d)
  | child (s : LocalState) (n : String) : Reachable s → Reachable (setChildName s n)

end Tracker.LocalStorage

namespace Tracker.Turns

open Tracker

/-- A row of the turns table as handled by src/api/turns.js. -/
structure TurnRow where
  id : Nat
  userId : Nat
  date : Day
  arch : Arch
  note : Option String
  deriving DecidableEq, Repr

/-- Outcome of the DELETE branch of src/api/turns.js. -/
inductive DeleteOutcome
  | ok
  | badRequest
  deriving DecidableEq, Repr

/-- DELETE branch of src/api/turns.js lines 94-113: without an id the
request is rejected (400); otherwise all rows with that id owned by the
authenticated user are deleted and the response is 200 { success: true },
whether or not any row matched. -/
def handleDelete (store : List TurnRow) (uid : Nat) (tid : Option Nat) :
    List TurnRow × DeleteOutcome :=
  match tid with
  | none => (store, DeleteOutcome.badRequest)
  | some t =>
    (store.filter (fun r => !(r.id == t && r.userId == uid)), DeleteOutcome.ok)

end Tracker.Turns

namespace Tracker

/-- A fresh API-variant state: default settings, no logged turns, no
install date. -/
def freshApiState : Api.ApiState :=
  { settings := { topTotal := 27, bottomTotal := 23, installDate := none,
                  scheduleType := ScheduleType.every_n_days, intervalDays := 2,
                  childName := "Child" },
    turns := [], counts := { topDone := 0, bottomDone := 0 },
    lastDates := { top := none, bottom := none } }

/-- The fresh API-variant state after a top turn on day 4. -/
def apiWaitState : Api.ApiState :=
  { settings := { topTotal := 27, bottomTotal := 23, installDate := none,
                  scheduleType := ScheduleType.every_n_days, intervalDays := 2,
                  childName := "Child" },
    turns := [{ date := 4, arch := Arch.top, note := none }],
    counts := { topDone := 1, bottomDone := 0 },
    lastDates := { top := some 4, bottom := none } }

/-- An API-variant state on the twice-per-week schedule with two top turns
already logged in the week of day 1 (a Monday). -/
def apiWeekState : Api.ApiState :=
  { settings := { topTotal := 27, bottomTotal := 23, installDate := none,
                  scheduleType := ScheduleType.twice_per_week, intervalDays := 2,
                  childName := "Child" },
    turns := [{ date := 3, arch := Arch.top, note := none },
              { date := 1, arch := Arch.top, note := none }],
    counts := { topDone := 2, bottomDone := 0 },
    lastDates := { top := some 3, bottom := none } }

/-- A localStorage-variant state in log-together mode whose combined last
turn date is day 10 although neither track has an individual last date. -/
def togetherWaitState : LocalStorage.LocalState :=
  { LocalStorage.defaultState with lastTurnDate := some 10 }

/-- The localStorage state reached from the defaults by logging three top
turns on day 0, then lowering topTotal to 2, then undoing the last log. -/
def staleUndoState : LocalStorage.LocalState :=
  (LocalStorage.undoLastLog (LocalStorage.setTopTotal
    (LocalStorage.logTurn (LocalStorage.logTurn (LocalStorage.logTurn
      LocalStorage.defaultState 0 ArchReq.top none) 0 ArchReq.top none)
      0 ArchReq.top none) 2)).2

/-- The localStorage state reached from the defaults by one top turn on
day 0. -/
def oneTopTurnState : LocalStorage.LocalState :=
  LocalStorage.logTurn LocalStorage.defaultState 0 ArchReq.top none

/-- A localStorage state one top turn short of completion on top. -/
def nearTopCompleteState : LocalStorage.LocalState :=
  { LocalStorage.defaultState with topTotal := 2 }

/-- A sample turn row of the turns store. -/
def sampleRow : Turns.TurnRow :=
  { id := 1, userId := 0, date := 0, arch := Arch.top, note := none }

/-- A second sample turn row with a fresh id. -/
def sampleRow2 : Turns.TurnRow :=
  { id := 2, userId := 0, date := 1, arch := Arch.top, note := none }

/-- The default localStorage state with separate (non-together) tracking. -/
def separateState : LocalStorage.LocalState :=
  { LocalStorage.defaultState with logTogether := false }

end Tracker

namespace Tracker

/-- A false canLogTurn result of the API variant is the complete rejection
exactly when the displayed done count reaches the total. -/
theorem api_canLogTurn_complete_iff (s : Api.ApiState) (today : Day) (a : Arch) :
    Api.canLogTurn s today a = completeResult ↔
      Api.total s a ≤ Api.logged s a + INSTALL_TURN := by
  constructor
  · intro he
    by_contra h1
    have h2 : ¬ (Api.logged s a + INSTALL_TURN ≥ Api.total s a) := h1
    simp only [Api.canLogTurn, if_neg h2] at he
    revert he
    split
    · split <;> simp [waitWeek, okResult, completeResult]
    · split
      · simp [okResult, completeResult]
      · split <;> simp [waitDays, okResult, completeResult]
  · intro h1
    have h2 : Api.logged s a + INSTALL_TURN ≥ Api.total s a := h1
    simp only [Api.canLogTurn, if_pos h2]

/-- The single-arch localStorage check is the complete rejection exactly
when the done counter reaches the total. -/
theorem local_canLogSingle_complete_iff (ls : LocalStorage.LocalState)
    (today : Day) (a : Arch) :
    LocalStorage.canLogSingle ls today a = completeResult ↔
      LocalStorage.total ls a ≤ LocalStorage.done ls a := by
  constructor
  · intro he
    by_contra h1
    have h2 : ¬ (LocalStorage.done ls a ≥ LocalStorage.total ls a) := h1
    simp only [LocalStorage.canLogSingle, if_neg h2] at he
    revert he
    split
    · simp [okResult, completeResult]
    · split <;> simp [waitDays, okResult, completeResult]
  · intro h1
    have h2 : LocalStorage.done ls a ≥ LocalStorage.total ls a := h1
    simp only [LocalStorage.canLogSingle, if_pos h2]

/-- C1: in both variants, for each single track, canLogTurn returns the
{ canLog: false, reason: 'complete' } result exactly when the done count
plus the variant's install-turn offset (1 added explicitly in the API
variant, 0 because the install turn is pre-counted in the localStorage
variant) reaches the track total, for every state and every current date,
independent of last dates and schedule type. -/
theorem c1_complete_iff_done_reaches_total :
    (∀ (s : Api.ApiState) (today : Day) (a : Arch),
       Api.canLogTurn s today a = completeResult ↔
         Api.total s a ≤ Api.logged s a + INSTALL_TURN)
    ∧ (∀ (ls : LocalStorage.LocalState) (today : Day) (a : Arch),
       LocalStorage.canLogTurn ls today a.toReq = completeResult ↔
         LocalStorage.total ls a ≤ LocalStorage.done ls a) := by
  refine ⟨api_canLogTurn_complete_iff, fun ls today a => ?_⟩
  cases a
  · exact local_canLogSingle_complete_iff ls today Arch.top
  · exact local_canLogSingle_complete_iff ls today Arch.bottom

/-- On the every-n-days schedule of the single-arch localStorage check,
with a recorded last date and a non-complete track, the result is the
interval gate. -/
theorem local_canLogSingle_interval (ls : LocalStorage.LocalState)
    (today last : Day) (a : Arch)
    (hlast : LocalStorage.lastDate ls a = some last)
    (hnc : LocalStorage.done ls a < LocalStorage.total ls a) :
    (daysBetween last today < ls.intervalDays →
       LocalStorage.canLogSingle ls today a =
         waitDays (ls.intervalDays - daysBetween last today))
    ∧ (ls.intervalDays ≤ daysBetween last today →
       LocalStorage.canLogSingle ls today a = okResult) := by
  have h2 : ¬ (LocalStorage.done ls a ≥ LocalStorage.total ls a) := not_le.mpr hnc
  constructor
  · intro hk
    simp only [LocalStorage.canLogSingle, if_neg h2, hlast, if_pos hk]
  · intro hk
    have hk2 : ¬ (daysBetween last today < ls.intervalDays) := not_lt.mpr hk
    simp only [LocalStorage.canLogSingle, if_neg h2, hlast, if_neg hk2]

/-- The analogous interval gate for the API variant. -/
theorem api_canLogTurn_interval (s : Api.ApiState) (today last : Day) (a : Arch)
    (hsched : s.settings.scheduleType = ScheduleType.every_n_days)
    (hlast : Api.lastDate s a = some last)
    (hnc : Api.logged s a + INSTALL_TURN < Api.total s a) :
    (daysBetween last today < s.settings.intervalDays →
       Api.canLogTurn s today a =
         waitDays (s.settings.intervalDays - daysBetween last today))
    ∧ (s.settings.intervalDays ≤ daysBetween last today →
       Api.canLogTurn s today a = okResult) := by
  have h2 : ¬ (Api.logged s a + INSTALL_TURN ≥ Api.total s a) := not_le.mpr hnc
  have hs2 : ¬ (s.settings.scheduleType = ScheduleType.twice_per_week) := by
    rw [hsched]; intro h; exact ScheduleType.noConfusion h
  constructor
  · intro hk
    simp only [Api.canLogTurn, if_neg h2, if_neg hs2, hlast, if_pos hk]
  · intro hk
    have hk2 : ¬ (daysBetween last today < s.settings.intervalDays) := not_lt.mpr hk
    simp only [Api.canLogTurn, if_neg h2, if_neg hs2, hlast, if_neg hk2]

/-- C2: on the every-n-days schedule with interval n at least 1, for a
non-complete track whose last date is recorded, with k the signed whole-day
difference from the last date to today, canLogTurn waits with
daysRemaining = n - k when k < n and is eligible when n ≤ k, in both
variants; since a future last date gives k < 0 < n, a negative k never
yields eligibility. -/
theorem c2_interval_gate (s : Api.ApiState) (today last : Day) (a : Arch)
    (hsched : s.settings.scheduleType = ScheduleType.every_n_days)
    (hn : 1 ≤ s.settings.intervalDays)
    (hlast : Api.lastDate s a = some last)
    (hnc : Api.logged s a + INSTALL_TURN < Api.total s a)
    (ls : LocalStorage.LocalState) (tday last2 : Day) (a2 : Arch)
    (hn2 : 1 ≤ ls.intervalDays)
    (hlast2 : LocalStorage.lastDate ls a2 = some last2)
    (hnc2 : LocalStorage.done ls a2 < LocalStorage.total ls a2) :
    (daysBetween last today < s.settings.intervalDays →
       Api.canLogTurn s today a =
         waitDays (s.settings.intervalDays - daysBetween last today))
    ∧ (s.settings.intervalDays ≤ daysBetween last today →
       Api.canLogTurn s today a = okResult)
    ∧ (daysBetween last2 tday < ls.intervalDays →
       LocalStorage.canLogTurn ls tday a2.toReq =
         waitDays (ls.intervalDays - daysBetween last2 tday))
    ∧ (ls.intervalDays ≤ daysBetween last2 tday →
       LocalStorage.canLogTurn ls tday a2.toReq = okResult) := by
  have happ := api_canLogTurn_interval s today last a hsched hlast hnc
  have hloc := local_canLogSingle_interval ls tday last2 a2 hlast2 hnc2
  refine ⟨happ.1, happ.2, ?_, ?_⟩ <;> cases a2 <;>
    first
      | exact hloc.1
      | exact hloc.2

/-- Witness for C2 at concrete inputs: one day after a top turn with a
2-day interval the API variant reports a 1-day wait, and five days after a
top turn the localStorage variant is eligible. -/
theorem c2_interval_gate_witness :
    Api.canLogTurn apiWaitState 5 Arch.top = waitDays 1
    ∧ LocalStorage.canLogTurn oneTopTurnState 5 ArchReq.top = okResult := by
  have h := c2_interval_gate apiWaitState 5 4 Arch.top rfl (by decide) (by decide)
    (by decide) oneTopTurnState 5 0 Arch.top (by decide) (by decide) (by decide)
  exact ⟨h.1 (by decide), h.2.2.2 (by decide)⟩

/-- C3 as stated fails: in the fresh API-variant state the top track is
not complete (done 0 + install turn 1 < 27), yet getNextDueDate returns
null because there is neither a last turn nor an install date. -/
theorem c3_counterexample :
    Api.getNextDueDate freshApiState 0 Arch.top = none
    ∧ Api.logged freshApiState Arch.top + INSTALL_TURN
        < Api.total freshApiState Arch.top := by
  decide

/-- C3 amended: getNextDueDate returns null iff the track is complete or
there is no anchor date: in the API variant, on the every-n-days schedule
with no last date and no install date; in the localStorage single-track
query, with no last date and no install date; and the combined query under
logTogether ignores completion entirely and is null iff there is neither a
combined last date nor an install date. -/
theorem c3_nextDueDate_none_iff :
    (∀ (s : Api.ApiState) (today : Day) (a : Arch),
       Api.getNextDueDate s today a = none ↔
         (Api.total s a ≤ Api.logged s a + INSTALL_TURN
          ∨ (s.settings.scheduleType = ScheduleType.every_n_days
             ∧ Api.lastDate s a = none ∧ s.settings.installDate = none)))
    ∧ (∀ (ls : LocalStorage.LocalState) (a : Arch),
       LocalStorage.getNextDueDate ls a.toReq = none ↔
         (LocalStorage.total ls a ≤ LocalStorage.done ls a
          ∨ (LocalStorage.lastDate ls a = none ∧ ls.installDate = none)))
    ∧ (∀ ls : LocalStorage.LocalState, ls.logTogether = true →
       (LocalStorage.getNextDueDate ls ArchReq.both = none ↔
         (ls.lastTurnDate = none ∧ ls.installDate = none))) := by
  refine ⟨fun s today a => ?_, fun ls a => ?_, fun ls hlt => ?_⟩
  · by_cases h1 : Api.total s a ≤ Api.logged s a + INSTALL_TURN
    · have h2 : Api.logged s a + INSTALL_TURN ≥ Api.total s a := h1
      simp only [Api.getNextDueDate, if_pos h2]
      simp [h1]
    · have h2 : ¬ (Api.logged s a + INSTALL_TURN ≥ Api.total s a) := h1
      simp only [Api.getNextDueDate, if_neg h2]
      rcases hsc : s.settings.scheduleType with _ | _
      · simp only [hsc]
        simp only [reduceCtorEq, if_false]
        rcases hld : Api.lastDate s a with _ | last
        · simp [h1]
        · simp [h1]
      · simp only [hsc, if_true]
        simp only [h1, reduceCtorEq, false_and, or_false, false_or, iff_false]
        split <;> simp
  · have hsingle : LocalStorage.getNextDueDate ls a.toReq
        = LocalStorage.getNextDueDateSingle ls a := by
      cases a <;> rfl
    rw [hsingle]
    by_cases h1 : LocalStorage.total ls a ≤ LocalStorage.done ls a
    · have h2 : LocalStorage.done ls a ≥ LocalStorage.total ls a := h1
      simp only [LocalStorage.getNextDueDateSingle, if_pos h2]
      simp [h1]
    · have h2 : ¬ (LocalStorage.done ls a ≥ LocalStorage.total ls a) := h1
      simp only [LocalStorage.getNextDueDateSingle, if_neg h2]
      rcases hld : LocalStorage.lastDate ls a with _ | last
      · simp [h1]
      · simp [h1]
  · simp only [LocalStorage.getNextDueDate, hlt, if_true]
    rcases hld : ls.lastTurnDate with _ | last
    · simp
    · simp

/-- Witness for C3 amended at concrete inputs: the fresh API state (no last
turn, no install date) has a null due date on top; after one top turn the
localStorage top track has a non-null due date; the default combined query
under logTogether is null. -/
theorem c3_nextDueDate_none_iff_witness :
    (Api.getNextDueDate freshApiState 0 Arch.top = none ↔
       (Api.total freshApiState Arch.top
          ≤ Api.logged freshApiState Arch.top + INSTALL_TURN
        ∨ (freshApiState.settings.scheduleType = ScheduleType.every_n_days
           ∧ Api.lastDate freshApiState Arch.top = none
           ∧ freshApiState.settings.installDate = none)))
    ∧ (LocalStorage.getNextDueDate oneTopTurnState Arch.top.toReq = none ↔
       (LocalStorage.total oneTopTurnState Arch.top
          ≤ LocalStorage.done oneTopTurnState Arch.top
        ∨ (LocalStorage.lastDate oneTopTurnState Arch.top = none
           ∧ oneTopTurnState.installDate = none)))
    ∧ (LocalStorage.getNextDueDate LocalStorage.defaultState ArchReq.both = none ↔
       (LocalStorage.defaultState.lastTurnDate = none
        ∧ LocalStorage.defaultState.installDate = none)) :=
  ⟨c3_nextDueDate_none_iff.1 freshApiState 0 Arch.top,
   c3_nextDueDate_none_iff.2.1 oneTopTurnState Arch.top,
   c3_nextDueDate_none_iff.2.2 LocalStorage.defaultState rfl⟩

/-- Arithmetic facts about the Monday-start week: the computed week start
falls on weekday 1 (Monday) and today lies within the 7-day window that
starts there. -/
theorem weekStart_facts (d : Int) :
    (d - ((d.emod 7 + 6).emod 7)).emod 7 = 1
    ∧ d - ((d.emod 7 + 6).emod 7) ≤ d
    ∧ d < (d - ((d.emod 7 + 6).emod 7)) + 7 := by
  have hb0 : 0 ≤ (d.emod 7 + 6).emod 7 := Int.emod_nonneg _ (by norm_num)
  have hb7 : (d.emod 7 + 6).emod 7 < 7 := Int.emod_lt_of_pos _ (by norm_num)
  refine ⟨?_, by omega, by omega⟩
  show (d - ((d % 7 + 6) % 7)) % 7 = 1
  rw [Int.sub_emod, Int.emod_emod_of_dvd _ dvd_rfl]
  have h0 : 0 ≤ d % 7 := Int.emod_nonneg _ (by norm_num)
  have h7 : d % 7 < 7 := Int.emod_lt_of_pos _ (by norm_num)
  generalize hr : d % 7 = r at h0 h7 ⊢
  interval_cases r <;> decide

/-- C4: on the twice-per-week schedule, for a non-complete track, the check
rejects with reason 'wait' and no daysRemaining as soon as at least two
turn events of that track fall in the current week, regardless of the day
gaps between or since them (no last-date field is consulted), and is
eligible when fewer than two such events exist; the week window counted by
getTurnsThisWeek starts on a Monday (weekday 1) and contains today. -/
theorem c4_weekly_cap (s : Api.ApiState) (today : Day) (a : Arch)
    (hsched : s.settings.scheduleType = ScheduleType.twice_per_week)
    (hnc : Api.logged s a + INSTALL_TURN < Api.total s a) :
    (2 ≤ Api.getTurnsThisWeek s today a → Api.canLogTurn s today a = waitWeek)
    ∧ (Api.getTurnsThisWeek s today a < 2 → Api.canLogTurn s today a = okResult)
    ∧ dayOfWeek (getWeekStart today) = 1
    ∧ getWeekStart today ≤ today
    ∧ today < addDays (getWeekStart today) 7 := by
  have h2 : ¬ (Api.logged s a + INSTALL_TURN ≥ Api.total s a) := not_le.mpr hnc
  refine ⟨?_, ?_, ?_, ?_, ?_⟩
  · intro hcap
    have hcap2 : Api.getTurnsThisWeek s today a ≥ 2 := hcap
    simp only [Api.canLogTurn, if_neg h2, hsched, if_true, if_pos hcap2]
  · intro hcap
    have hcap2 : ¬ (Api.getTurnsThisWeek s today a ≥ 2) := not_le.mpr hcap
    simp only [Api.canLogTurn, if_neg h2, hsched, if_true, if_neg hcap2]
  · exact (weekStart_facts today).1
  · exact (weekStart_facts today).2.1
  · exact (weekStart_facts today).2.2

/-- Witness for C4 at concrete inputs: with two top turns on Monday (day 1)
and Wednesday (day 3) of the current week, a third top attempt on day 3 is
rejected with the weekly-cap wait; the bottom track with zero turns this
week is eligible. -/
theorem c4_weekly_cap_witness :
    Api.canLogTurn apiWeekState 3 Arch.top = waitWeek
    ∧ Api.canLogTurn apiWeekState 3 Arch.bottom = okResult := by
  refine ⟨(c4_weekly_cap apiWeekState 3 Arch.top rfl (by decide)).1 (by decide),
    (c4_weekly_cap apiWeekState 3 Arch.bottom rfl (by decide)).2.1 (by decide)⟩

/-- Field selectors of the localStorage single-arch helpers reduce to the
raw state fields. -/
theorem local_selectors (ls : LocalStorage.LocalState) :
    LocalStorage.done ls Arch.top = ls.topDone
    ∧ LocalStorage.done ls Arch.bottom = ls.bottomDone
    ∧ LocalStorage.total ls Arch.top = ls.topTotal
    ∧ LocalStorage.total ls Arch.bottom = ls.bottomTotal
    ∧ LocalStorage.lastDate ls Arch.top = ls.lastTopTurnDate
    ∧ LocalStorage.lastDate ls Arch.bottom = ls.lastBottomTurnDate := by
  refine ⟨rfl, ?_, rfl, ?_, rfl, ?_⟩ <;>
    simp [LocalStorage.done, LocalStorage.total, LocalStorage.lastDate]

/-- For a non-complete track, the single-arch check returns either the
eligible result or an interval wait. -/
theorem local_canLogSingle_cases (ls : LocalStorage.LocalState) (today : Day)
    (a : Arch) (h : ¬ LocalStorage.total ls a ≤ LocalStorage.done ls a) :
    LocalStorage.canLogSingle ls today a = okResult
    ∨ ∃ d, LocalStorage.canLogSingle ls today a = waitDays d := by
  have h2 : ¬ (LocalStorage.done ls a ≥ LocalStorage.total ls a) := h
  simp only [LocalStorage.canLogSingle, if_neg h2]
  split
  · exact Or.inl rfl
  · split
    · exact Or.inr ⟨_, rfl⟩
    · exact Or.inl rfl

/-- The single-arch status is complete exactly when the track is complete. -/
theorem local_statusSingle_complete_iff (ls : LocalStorage.LocalState)
    (today : Day) (a : Arch) :
    LocalStorage.getStatusSingle ls today a = Status.complete ↔
      LocalStorage.total ls a ≤ LocalStorage.done ls a := by
  by_cases h : LocalStorage.total ls a ≤ LocalStorage.done ls a
  · have h2 : LocalStorage.done ls a ≥ LocalStorage.total ls a := h
    simp only [LocalStorage.getStatusSingle, if_pos h2]
    simp [h]
  · have h2 : ¬ (LocalStorage.done ls a ≥ LocalStorage.total ls a) := h
    simp only [LocalStorage.getStatusSingle, if_neg h2, h, iff_false]
    rcases local_canLogSingle_cases ls today a h with hc | ⟨d, hc⟩ <;>
      simp [hc, okResult, waitDays]

/-- For a non-complete track, the single-arch status is ready exactly when
the single-arch check allows logging. -/
theorem local_statusSingle_ready_iff (ls : LocalStorage.LocalState)
    (today : Day) (a : Arch)
    (h : ¬ LocalStorage.total ls a ≤ LocalStorage.done ls a) :
    (LocalStorage.getStatusSingle ls today a = Status.ready ↔
      (LocalStorage.canLogSingle ls today a).canLog = true) := by
  have h2 : ¬ (LocalStorage.done ls a ≥ LocalStorage.total ls a) := h
  simp only [LocalStorage.getStatusSingle, if_neg h2]
  rcases local_canLogSingle_cases ls today a h with hc | ⟨d, hc⟩ <;>
    simp [hc, okResult, waitDays]

/-- The combined status formula of the API variant render aggregates the
two per-track statuses as the claim describes. -/
theorem api_overall_aggregates (s : Api.ApiState) (today : Day) :
    (Api.overallStatus s today = Status.complete ↔
       Api.getStatus s today Arch.top = Status.complete
       ∧ Api.getStatus s today Arch.bottom = Status.complete)
    ∧ ((Api.getStatus s today Arch.top = Status.ready
        ∨ Api.getStatus s today Arch.bottom = Status.ready) →
       Api.overallStatus s today = Status.ready)
    ∧ (¬(Api.getStatus s today Arch.top = Status.complete
         ∧ Api.getStatus s today Arch.bottom = Status.complete) →
       ¬(Api.getStatus s today Arch.top = Status.ready
         ∨ Api.getStatus s today Arch.bottom = Status.ready) →
       Api.overallStatus s today = Status.wait) := by
  cases ht : Api.getStatus s today Arch.top <;>
    cases hb : Api.getStatus s today Arch.bottom <;>
      simp [Api.overallStatus, ht, hb]

/-- Whenever the top track is not complete, the combined localStorage check
never carries the complete reason. -/
theorem local_canLogBoth_reason_ne_complete (ls : LocalStorage.LocalState)
    (today : Day) (ht : ¬ ls.topTotal ≤ ls.topDone) :
    (LocalStorage.canLogTurn ls today ArchReq.both).reason ≠ some Reason.complete := by
  have hcond : ¬ (ls.topDone ≥ ls.topTotal ∧ ls.bottomDone ≥ ls.bottomTotal) :=
    fun h => ht h.1
  simp only [LocalStorage.canLogTurn, if_neg hcond]
  have htop : ¬ LocalStorage.total ls Arch.top ≤ LocalStorage.done ls Arch.top := by
    rw [(local_selectors ls).2.2.1, (local_selectors ls).1]
    exact ht
  split
  · split
    · simp [okResult]
    · split <;> simp [waitDays, okResult]
  · rcases local_canLogSingle_cases ls today Arch.top htop with hc | ⟨d, hc⟩ <;>
      split <;> simp [hc, okResult, waitDays]

/-- The combined localStorage status is complete exactly when both tracks
are complete. -/
theorem local_status_both_complete_iff (ls : LocalStorage.LocalState)
    (today : Day) :
    LocalStorage.getStatus ls today ArchReq.both = Status.complete ↔
      (LocalStorage.getStatusSingle ls today Arch.top = Status.complete
       ∧ LocalStorage.getStatusSingle ls today Arch.bottom = Status.complete) := by
  by_cases htc : LocalStorage.getStatusSingle ls today Arch.top = Status.complete <;>
    by_cases hbc : LocalStorage.getStatusSingle ls today Arch.bottom = Status.complete
  · simp only [LocalStorage.getStatus, if_pos (And.intro htc hbc)]
    simp [htc, hbc]
  · have hcond : ¬ (LocalStorage.getStatusSingle ls today Arch.top = Status.complete
        ∧ LocalStorage.getStatusSingle ls today Arch.bottom = Status.complete) :=
      fun h => hbc h.2
    simp only [LocalStorage.getStatus, if_neg hcond, if_pos htc]
    simp [hbc]
  · have hcond : ¬ (LocalStorage.getStatusSingle ls today Arch.top = Status.complete
        ∧ LocalStorage.getStatusSingle ls today Arch.bottom = Status.complete) :=
      fun h => htc h.1
    simp only [LocalStorage.getStatus, if_neg hcond, if_neg htc, if_pos hbc]
    simp [htc]
  · have hcond : ¬ (LocalStorage.getStatusSingle ls today Arch.top = Status.complete
        ∧ LocalStorage.getStatusSingle ls today Arch.bottom = Status.complete) :=
      fun h => htc h.1
    simp only [LocalStorage.getStatus, if_neg hcond, if_neg htc, if_neg hbc]
    have ht2 : ¬ ls.topTotal ≤ ls.topDone := by
      intro h
      apply htc
      rw [local_statusSingle_complete_iff, (local_selectors ls).2.2.1,
        (local_selectors ls).1]
      exact h
    have hne := local_canLogBoth_reason_ne_complete ls today ht2
    constructor
    · intro h
      revert h
      split <;> intro h <;> simp_all
    · intro h
      exact absurd h.1 htc

/-- In separate tracking mode the combined localStorage status aggregates
the per-track statuses: ready when either track is ready, wait when
neither is ready and they are not both complete. -/
theorem local_status_both_separate (ls : LocalStorage.LocalState) (today : Day)
    (hlt : ls.logTogether = false) :
    ((LocalStorage.getStatusSingle ls today Arch.top = Status.ready
      ∨ LocalStorage.getStatusSingle ls today Arch.bottom = Status.ready) →
     LocalStorage.getStatus ls today ArchReq.both = Status.ready)
    ∧ (¬(LocalStorage.getStatusSingle ls today Arch.top = Status.complete
         ∧ LocalStorage.getStatusSingle ls today Arch.bottom = Status.complete) →
       ¬(LocalStorage.getStatusSingle ls today Arch.top = Status.ready
         ∨ LocalStorage.getStatusSingle ls today Arch.bottom = Status.ready) →
       LocalStorage.getStatus ls today ArchReq.both = Status.wait) := by
  have hsel := local_selectors ls
  constructor
  · intro hr
    have hncomp : ¬ (LocalStorage.getStatusSingle ls today Arch.top = Status.complete
        ∧ LocalStorage.getStatusSingle ls today Arch.bottom = Status.complete) := by
      rcases hr with hr | hr
      · intro h
        rw [hr] at h
        exact Status.noConfusion h.1
      · intro h
        rw [hr] at h
        exact Status.noConfusion h.2
    rcases hr with hr | hr
    · have htnc : ¬ LocalStorage.total ls Arch.top ≤ LocalStorage.done ls Arch.top := by
        intro h
        rw [(local_statusSingle_complete_iff ls today Arch.top).mpr h] at hr
        exact Status.noConfusion hr
      have htcl : (LocalStorage.canLogSingle ls today Arch.top).canLog = true :=
        (local_statusSingle_ready_iff ls today Arch.top htnc).mp hr
      have htne : ¬ LocalStorage.getStatusSingle ls today Arch.top = Status.complete := by
        rw [hr]
        exact fun h => Status.noConfusion h
      have hboth : ¬ (ls.topDone ≥ ls.topTotal ∧ ls.bottomDone ≥ ls.bottomTotal) := by
        intro h
        apply htnc
        rw [hsel.2.2.1, hsel.1]
        exact h.1
      have hcond2 : ¬ (¬(LocalStorage.canLogSingle ls today Arch.top).canLog = true
          ∧ ¬(LocalStorage.canLogSingle ls today Arch.bottom).canLog = true) :=
        fun h => h.1 htcl
      have hcan : LocalStorage.canLogTurn ls today ArchReq.both = okResult := by
        simp only [LocalStorage.canLogTurn, if_neg hboth, hlt, Bool.false_eq_true,
          if_false, if_neg hcond2]
      by_cases hbcomp : LocalStorage.getStatusSingle ls today Arch.bottom = Status.complete
      · simp only [LocalStorage.getStatus, if_neg hncomp, if_neg htne, if_pos hbcomp]
        exact hr
      · simp only [LocalStorage.getStatus, if_neg hncomp, if_neg htne, if_neg hbcomp, hcan]
        simp [okResult]
    · have hbnc : ¬ LocalStorage.total ls Arch.bottom ≤ LocalStorage.done ls Arch.bottom := by
        intro h
        rw [(local_statusSingle_complete_iff ls today Arch.bottom).mpr h] at hr
        exact Status.noConfusion hr
      have hbcl : (LocalStorage.canLogSingle ls today Arch.bottom).canLog = true :=
        (local_statusSingle_ready_iff ls today Arch.bottom hbnc).mp hr
      have hbne : ¬ LocalStorage.getStatusSingle ls today Arch.bottom = Status.complete := by
        rw [hr]
        exact fun h => Status.noConfusion h
      have hboth : ¬ (ls.topDone ≥ ls.topTotal ∧ ls.bottomDone ≥ ls.bottomTotal) := by
        intro h
        apply hbnc
        rw [hsel.2.2.2.1, hsel.2.1]
        exact h.2
      have hcond2 : ¬ (¬(LocalStorage.canLogSingle ls today Arch.top).canLog = true
          ∧ ¬(LocalStorage.canLogSingle ls today Arch.bottom).canLog = true) :=
        fun h => h.2 hbcl
      have hcan : LocalStorage.canLogTurn ls today ArchReq.both = okResult := by
        simp only [LocalStorage.canLogTurn, if_neg hboth, hlt, Bool.false_eq_true,
          if_false, if_neg hcond2]
      by_cases htcomp : LocalStorage.getStatusSingle ls today Arch.top = Status.complete
      · simp only [LocalStorage.getStatus, if_neg hncomp, if_pos htcomp]
        exact hr
      · simp only [LocalStorage.getStatus, if_neg hncomp, if_neg htcomp, if_neg hbne, hcan]
        simp [okResult]
  · intro hncomp hnr
    have htnr : ¬ LocalStorage.getStatusSingle ls today Arch.top = Status.ready :=
      fun h => hnr (Or.inl h)
    have hbnr : ¬ LocalStorage.getStatusSingle ls today Arch.bottom = Status.ready :=
      fun h => hnr (Or.inr h)
    by_cases htcomp : LocalStorage.getStatusSingle ls today Arch.top = Status.complete
    · have hbcomp : ¬ LocalStorage.getStatusSingle ls today Arch.bottom = Status.complete :=
        fun h => hncomp (And.intro htcomp h)
      simp only [LocalStorage.getStatus, if_neg hncomp, if_pos htcomp]
      cases hbv : LocalStorage.getStatusSingle ls today Arch.bottom
      · exact absurd hbv hbnr
      · rfl
      · exact absurd hbv hbcomp
    · by_cases hbcomp : LocalStorage.getStatusSingle ls today Arch.bottom = Status.complete
      · simp only [LocalStorage.getStatus, if_neg hncomp, if_neg htcomp, if_pos hbcomp]
        cases htv : LocalStorage.getStatusSingle ls today Arch.top
        · exact absurd htv htnr
        · rfl
        · exact absurd htv htcomp
      · have htnc : ¬ LocalStorage.total ls Arch.top ≤ LocalStorage.done ls Arch.top :=
          fun h => htcomp ((local_statusSingle_complete_iff ls today Arch.top).mpr h)
        have hbnc : ¬ LocalStorage.total ls Arch.bottom ≤ LocalStorage.done ls Arch.bottom :=
          fun h => hbcomp ((local_statusSingle_complete_iff ls today Arch.bottom).mpr h)
        have htcl : ¬ (LocalStorage.canLogSingle ls today Arch.top).canLog = true :=
          fun h => htnr ((local_statusSingle_ready_iff ls today Arch.top htnc).mpr h)
        have hbcl : ¬ (LocalStorage.canLogSingle ls today Arch.bottom).canLog = true :=
          fun h => hbnr ((local_statusSingle_ready_iff ls today Arch.bottom hbnc).mpr h)
        have hboth : ¬ (ls.topDone ≥ ls.topTotal ∧ ls.bottomDone ≥ ls.bottomTotal) := by
          intro h
          apply htnc
          rw [hsel.2.2.1, hsel.1]
          exact h.1
        rcases local_canLogSingle_cases ls today Arch.top htnc with hc | ⟨d, hc⟩
        · exact absurd (by rw [hc]; rfl) htcl
        · have hcan : LocalStorage.canLogTurn ls today ArchReq.both = waitDays d := by
            simp only [LocalStorage.canLogTurn, if_neg hboth, hlt, Bool.false_eq_true,
              if_false]
            rw [if_pos (And.intro htcl hbcl), hc]
          simp only [LocalStorage.getStatus, if_neg hncomp, if_neg htcomp, if_neg hbcomp,
            hcan]
          simp [waitDays]

/-- C5 as stated fails on the localStorage variant: in log-together mode
with a combined last turn of today, both per-track statuses are ready yet
the combined status is wait. -/
theorem c5_counterexample :
    LocalStorage.getStatus togetherWaitState 10 ArchReq.top = Status.ready
    ∧ LocalStorage.getStatus togetherWaitState 10 ArchReq.bottom = Status.ready
    ∧ LocalStorage.getStatus togetherWaitState 10 ArchReq.both = Status.wait := by
  decide

/-- C5 amended: the API-variant combined status aggregates per-track
statuses exactly as claimed (complete iff both complete, ready if either
ready, wait otherwise); the localStorage combined status is complete iff
both tracks are complete, and aggregates ready/wait as claimed when
logTogether is false, but in log-together mode the ready/wait component is
gated by the combined last-turn date and may disagree with the per-track
statuses. -/
theorem c5_combined_status :
    (∀ (s : Api.ApiState) (today : Day),
       (Api.overallStatus s today = Status.complete ↔
          Api.getStatus s today Arch.top = Status.complete
          ∧ Api.getStatus s today Arch.bottom = Status.complete)
       ∧ ((Api.getStatus s today Arch.top = Status.ready
           ∨ Api.getStatus s today Arch.bottom = Status.ready) →
          Api.overallStatus s today = Status.ready)
       ∧ (¬(Api.getStatus s today Arch.top = Status.complete
            ∧ Api.getStatus s today Arch.bottom = Status.complete) →
          ¬(Api.getStatus s today Arch.top = Status.ready
            ∨ Api.getStatus s today Arch.bottom = Status.ready) →
          Api.overallStatus s today = Status.wait))
    ∧ (∀ (ls : LocalStorage.LocalState) (today : Day),
       LocalStorage.getStatus ls today ArchReq.both = Status.complete ↔
         (LocalStorage.getStatusSingle ls today Arch.top = Status.complete
          ∧ LocalStorage.getStatusSingle ls today Arch.bottom = Status.complete))
    ∧ (∀ (ls : LocalStorage.LocalState) (today : Day), ls.logTogether = false →
       ((LocalStorage.getStatusSingle ls today Arch.top = Status.ready
         ∨ LocalStorage.getStatusSingle ls today Arch.bottom = Status.ready) →
        LocalStorage.getStatus ls today ArchReq.both = Status.ready)
       ∧ (¬(LocalStorage.getStatusSingle ls today Arch.top = Status.complete
            ∧ LocalStorage.getStatusSingle ls today Arch.bottom = Status.complete) →
          ¬(LocalStorage.getStatusSingle ls today Arch.top = Status.ready
            ∨ LocalStorage.getStatusSingle ls today Arch.bottom = Status.ready) →
          LocalStorage.getStatus ls today ArchReq.both = Status.wait)) :=
  ⟨api_overall_aggregates, local_status_both_complete_iff, local_status_both_separate⟩

/-- Witness for C5 amended at concrete inputs: the fresh API state is ready
combined since both tracks are ready, and the separated default
localStorage state has a ready combined status because its top track is
ready. -/
theorem c5_combined_status_witness :
    Api.overallStatus freshApiState 0 = Status.ready
    ∧ LocalStorage.getStatus separateState 0 ArchReq.both = Status.ready :=
  ⟨(c5_combined_status.1 freshApiState 0).2.1 (Or.inl (by decide)),
   (c5_combined_status.2.2 separateState 0 rfl).1 (Or.inl (by decide))⟩

/-- Field equations of the localStorage logTurn: the totals, the
log-together flag and the interval are untouched; each counter is
incremented exactly when the arch is selected and the track is below its
total; the new entry is prepended and the history capped at 50. -/
theorem logTurn_fields (s : LocalStorage.LocalState) (today : Day)
    (arch : ArchReq) (note : Option String) :
    (LocalStorage.logTurn s today arch note).topTotal = s.topTotal
    ∧ (LocalStorage.logTurn s today arch note).bottomTotal = s.bottomTotal
    ∧ (LocalStorage.logTurn s today arch note).logTogether = s.logTogether
    ∧ (LocalStorage.logTurn s today arch note).intervalDays = s.intervalDays
    ∧ (LocalStorage.logTurn s today arch note).topDone =
        (if (arch = ArchReq.both ∨ arch = ArchReq.top) ∧ s.topDone < s.topTotal
         then s.topDone + 1 else s.topDone)
    ∧ (LocalStorage.logTurn s today arch note).bottomDone =
        (if (arch = ArchReq.both ∨ arch = ArchReq.bottom) ∧ s.bottomDone < s.bottomTotal
         then s.bottomDone + 1 else s.bottomDone)
    ∧ (LocalStorage.logTurn s today arch note).history =
        ({ date := today, note := note,
           topDoneAfter := (LocalStorage.logTurn s today arch note).topDone,
           bottomDoneAfter := (LocalStorage.logTurn s today arch note).bottomDone } ::
          s.history).take 50 := by
  simp only [LocalStorage.logTurn]
  split_ifs <;> simp_all

/-- undoLastLog never touches the totals or the log-together flag. -/
theorem undoLastLog_fields (s : LocalStorage.LocalState) :
    ((LocalStorage.undoLastLog s).2).logTogether = s.logTogether
    ∧ ((LocalStorage.undoLastLog s).2).topTotal = s.topTotal
    ∧ ((LocalStorage.undoLastLog s).2).bottomTotal = s.bottomTotal := by
  rcases hh : s.history with _ | ⟨e, rest⟩
  · simp [LocalStorage.undoLastLog, hh]
  · rcases rest with _ | ⟨p, t⟩ <;> simp [LocalStorage.undoLastLog, hh]

/-- C6 as stated fails: after three top turns, lowering topTotal to 2
(which clamps topDone) and then undoing the last log, the restored counter
exceeds the new total, in a state reachable by the public operations. -/
theorem c6_counterexample :
    LocalStorage.Reachable staleUndoState
    ∧ staleUndoState.topTotal < staleUndoState.topDone := by
  constructor
  · exact LocalStorage.Reachable.undo _ (LocalStorage.Reachable.topTotalEdit _ 2
      (LocalStorage.Reachable.log _ 0 ArchReq.top none
        (LocalStorage.Reachable.log _ 0 ArchReq.top none
          (LocalStorage.Reachable.log _ 0 ArchReq.top none
            LocalStorage.Reachable.start))))
  · decide

/-- C6 amended: logTurn preserves doneCount at most total and never
increments a complete track, but it always appends a history entry (the
history length becomes min 50 (old length + 1) even when the track is
complete); the total edits clamp the counter; the invariant can still be
broken by undoLastLog after a total was lowered (see the counterexample). -/
theorem c6_completion_guard (s : LocalStorage.LocalState) (today : Day)
    (arch : ArchReq) (note : Option String) (v : Int) :
    (s.topDone ≤ s.topTotal →
       (LocalStorage.logTurn s today arch note).topDone
         ≤ (LocalStorage.logTurn s today arch note).topTotal)
    ∧ (s.bottomDone ≤ s.bottomTotal →
       (LocalStorage.logTurn s today arch note).bottomDone
         ≤ (LocalStorage.logTurn s today arch note).bottomTotal)
    ∧ (s.topTotal ≤ s.topDone →
       (LocalStorage.logTurn s today arch note).topDone = s.topDone)
    ∧ (s.bottomTotal ≤ s.bottomDone →
       (LocalStorage.logTurn s today arch note).bottomDone = s.bottomDone)
    ∧ (LocalStorage.logTurn s today arch note).history.length
        = min 50 (s.history.length + 1)
    ∧ (LocalStorage.setTopTotal s v).topDone ≤ (LocalStorage.setTopTotal s v).topTotal
    ∧ (LocalStorage.setBottomTotal s v).bottomDone
        ≤ (LocalStorage.setBottomTotal s v).bottomTotal := by
  obtain ⟨ht, hb, _, _, hd, hbd, hh⟩ := logTurn_fields s today arch note
  refine ⟨?_, ?_, ?_, ?_, ?_, ?_, ?_⟩
  · intro h
    rw [ht, hd]
    split
    · rename_i hc
      have := hc.2
      omega
    · exact h
  · intro h
    rw [hb, hbd]
    split
    · rename_i hc
      have := hc.2
      omega
    · exact h
  · intro h
    rw [hd, if_neg]
    intro hc
    have := hc.2
    omega
  · intro h
    rw [hbd, if_neg]
    intro hc
    have := hc.2
    omega
  · rw [hh, List.length_take]
    simp
  · simp only [LocalStorage.setTopTotal]
    split <;> omega
  · simp only [LocalStorage.setBottomTotal]
    split <;> omega

/-- Witness for C6 amended at concrete inputs: logging a top turn from the
defaults keeps the counter at most the total, and the history grows to one
entry. -/
theorem c6_completion_guard_witness :
    (LocalStorage.logTurn LocalStorage.defaultState 0 ArchReq.top none).topDone
      ≤ (LocalStorage.logTurn LocalStorage.defaultState 0 ArchReq.top none).topTotal
    ∧ (LocalStorage.logTurn LocalStorage.defaultState 0 ArchReq.top none).history.length
      = min 50 (LocalStorage.defaultState.history.length + 1) :=
  ⟨(c6_completion_guard LocalStorage.defaultState 0 ArchReq.top none 5).1 (by decide),
   (c6_completion_guard LocalStorage.defaultState 0 ArchReq.top none 5).2.2.2.2.1⟩

/-- C8 as stated fails: a top turn that completes the top track while the
bottom track still has remaining turns leaves logTogether at true; the
claimed automatic true-to-false transition is not implemented. -/
theorem c8_counterexample :
    nearTopCompleteState.logTogether = true
    ∧ (LocalStorage.logTurn nearTopCompleteState 0 ArchReq.top none).topTotal
        ≤ (LocalStorage.logTurn nearTopCompleteState 0 ArchReq.top none).topDone
    ∧ (LocalStorage.logTurn nearTopCompleteState 0 ArchReq.top none).bottomDone
        < (LocalStorage.logTurn nearTopCompleteState 0 ArchReq.top none).bottomTotal
    ∧ (LocalStorage.logTurn nearTopCompleteState 0 ArchReq.top none).logTogether = true := by
  decide

/-- C8 amended: no log-turn or undo operation ever changes the logTogether
setting; it is changed only by the explicit settings toggle and by reset,
so in particular completing one track does not transition it to false. -/
theorem c8_logTogether_never_auto (s : LocalStorage.LocalState) (today : Day)
    (arch : ArchReq) (note : Option String) :
    (LocalStorage.logTurn s today arch note).logTogether = s.logTogether
    ∧ ((LocalStorage.undoLastLog s).2).logTogether = s.logTogether :=
  ⟨(logTurn_fields s today arch note).2.2.1, (undoLastLog_fields s).1⟩

/-- C10: after every logTurn call the history is the new entry (carrying
the post-increment counters) prepended to the old history and truncated to
the 50 newest entries, hence it never exceeds 50 entries. -/
theorem c10_history_cap (s : LocalStorage.LocalState) (today : Day)
    (arch : ArchReq) (note : Option String) :
    (LocalStorage.logTurn s today arch note).history.length ≤ 50
    ∧ (LocalStorage.logTurn s today arch note).history =
        ({ date := today, note := note,
           topDoneAfter := (LocalStorage.logTurn s today arch note).topDone,
           bottomDoneAfter := (LocalStorage.logTurn s today arch note).bottomDone } ::
          s.history).take 50 := by
  have hh := (logTurn_fields s today arch note).2.2.2.2.2.2
  refine ⟨?_, hh⟩
  rw [hh, List.length_take]
  exact Nat.min_le_left _ _

/-- C7 as stated fails: starting from one logged top turn (no bottom turn
ever logged, lastBottomTurnDate = null), logging another top turn and
immediately undoing it re-infers a bottom last date from the snapshot
history, so lastBottomTurnDate is not restored. -/
theorem c7_counterexample :
    ((LocalStorage.undoLastLog
        (LocalStorage.logTurn oneTopTurnState 1 ArchReq.top none)).2).lastBottomTurnDate
      ≠ oneTopTurnState.lastBottomTurnDate := by
  decide

/-- C7 amended: when the pre-state's counters agree with its newest history
entry (or equal the initial 1/1 when the history is empty, an invariant of
histories produced by logTurn), logging a turn and immediately undoing it
restores doneCount for both tracks exactly; the last-turn dates are instead
re-inferred from the snapshot history and are not restored in general.  In
the API variant, deleting the freshly inserted row restores the turn list
exactly, so the re-derived aggregates are restored exactly. -/
theorem c7_roundtrip (s : LocalStorage.LocalState) (today : Day) (arch : ArchReq)
    (note : Option String)
    (hhead : s.topDone = ((s.history.head?.map (fun e => e.topDoneAfter)).getD 1)
           ∧ s.bottomDone = ((s.history.head?.map (fun e => e.bottomDoneAfter)).getD 1)) :
    (LocalStorage.undoLastLog (LocalStorage.logTurn s today arch note)).1 = true
    ∧ ((LocalStorage.undoLastLog (LocalStorage.logTurn s today arch note)).2).topDone
        = s.topDone
    ∧ ((LocalStorage.undoLastLog (LocalStorage.logTurn s today arch note)).2).bottomDone
        = s.bottomDone
    ∧ (∀ (store : List Turns.TurnRow) (row : Turns.TurnRow) (uid : Nat),
        row.userId = uid → (∀ r ∈ store, r.id ≠ row.id) →
        (Turns.handleDelete (store ++ [row]) uid (some row.id)).1 = store) := by
  have hh := (logTurn_fields s today arch note).2.2.2.2.2.2
  have hhist : (LocalStorage.logTurn s today arch note).history =
      { date := today, note := note,
        topDoneAfter := (LocalStorage.logTurn s today arch note).topDone,
        bottomDoneAfter := (LocalStorage.logTurn s today arch note).bottomDone } ::
        s.history.take 49 := by
    rw [hh, List.take_succ_cons]
  have hdel : ∀ (store : List Turns.TurnRow) (row : Turns.TurnRow) (uid : Nat),
      row.userId = uid → (∀ r ∈ store, r.id ≠ row.id) →
      (Turns.handleDelete (store ++ [row]) uid (some row.id)).1 = store := by
    intro store row uid hu hid
    simp only [Turns.handleDelete, List.filter_append]
    have h1 : store.filter
        (fun r => !(r.id == row.id && r.userId == uid)) = store := by
      rw [List.filter_eq_self]
      intro r hr
      simp [hid r hr]
    have h2 : [row].filter
        (fun r => !(r.id == row.id && r.userId == uid)) = [] := by
      simp [hu]
    rw [h1, h2, List.append_nil]
  rcases hcase : s.history with _ | ⟨e, tl⟩
  · rw [hcase] at hhist
    simp only [List.take_nil] at hhist
    rw [hcase] at hhead
    simp only [List.head?_nil, Option.map_none, Option.getD_none] at hhead
    unfold LocalStorage.undoLastLog
    rw [hhist]
    exact ⟨rfl, by simp [hhead.1], by simp [hhead.2], hdel⟩
  · rw [hcase] at hhist
    rw [List.take_succ_cons] at hhist
    rw [hcase] at hhead
    simp only [List.head?_cons, Option.map_some, Option.getD_some] at hhead
    unfold LocalStorage.undoLastLog
    rw [hhist]
    exact ⟨rfl, by simp [hhead.1], by simp [hhead.2], hdel⟩

/-- Witness for C7 amended at concrete inputs: after one top turn from the
defaults, logging and undoing another top turn restores both counters, and
deleting a freshly appended row restores the sample store. -/
theorem c7_roundtrip_witness :
    ((LocalStorage.undoLastLog
        (LocalStorage.logTurn oneTopTurnState 1 ArchReq.top none)).2).topDone
      = oneTopTurnState.topDone
    ∧ ((LocalStorage.undoLastLog
        (LocalStorage.logTurn oneTopTurnState 1 ArchReq.top none)).2).bottomDone
      = oneTopTurnState.bottomDone
    ∧ (Turns.handleDelete ([sampleRow] ++ [sampleRow2]) 0 (some sampleRow2.id)).1
      = [sampleRow] := by
  have h := c7_roundtrip oneTopTurnState 1 ArchReq.top none (by decide)
  exact ⟨h.2.1, h.2.2.1, h.2.2.2 [sampleRow] sampleRow2 0 rfl (by decide)⟩

/-- C9: undoing with an empty history returns false and leaves the state
untouched, and the turns-endpoint DELETE of an id not present in the store
leaves the store unchanged and still reports success. -/
theorem c9_error_handling (s : LocalStorage.LocalState) (hs : s.history = [])
    (store : List Turns.TurnRow) (uid tid : Nat)
    (hid : ∀ r ∈ store, r.id ≠ tid) :
    LocalStorage.undoLastLog s = (false, s)
    ∧ Turns.handleDelete store uid (some tid) = (store, Turns.DeleteOutcome.ok) := by
  constructor
  · unfold LocalStorage.undoLastLog
    rw [hs]
  · simp only [Turns.handleDelete]
    rw [List.filter_eq_self.mpr]
    intro r hr
    simp [hid r hr]

/-- Witness for C9 at concrete inputs: undo on the default (empty-history)
state fails benignly, and deleting the absent id 2 from the one-row store
is a no-op success. -/
theorem c9_error_handling_witness :
    LocalStorage.undoLastLog LocalStorage.defaultState
      = (false, LocalStorage.defaultState)
    ∧ Turns.handleDelete [sampleRow] 0 (some 2)
      = ([sampleRow], Turns.DeleteOutcome.ok) :=
  c9_error_handling LocalStorage.defaultState rfl [sampleRow] 0 2 (by decide)

end Tracker
